import Mathlib

/-!
Verification development for the training/evaluation harness in `src/train.py`
(tennis video-frame classification).

Modelling conventions:
- Python strings are modelled as `List Char` (`PyStr`); Python compares strings
  by code points, which matches lexicographic comparison of the character lists.
- Learning-rate arithmetic is modelled exactly over `ℚ`.
- Fallible Python operations (IndexError, AttributeError, failed `int()` parses,
  `assert` failures) are modelled with `Option`/`Except`.
- The epoch loop of `train_model` is modelled twice, as two projections of the
  same loop: `runLR` follows the learning-rate/boundary-counter state, and
  `trainTrace` records the ordered side effects (train pass, validation pass,
  checkpoint save, crash) of each epoch iteration.
-/

/-- Python strings as lists of characters. -/
abbrev PyStr := List Char

/-- Character list of a Lean string literal. -/
def pyStr (s : String) : PyStr := s.data

/-- Code-point lexicographic comparison of Python strings: `strLe a b` models
`a <= b` for Python `str`, which is how `sorted` orders filenames. -/
def strLe : PyStr → PyStr → Bool
  | [], _ => true
  | _ :: _, [] => false
  | a :: as, b :: bs => if a < b then true else if b < a then false else strLe as bs

/-- Python `f[-7:]`: the last seven characters of `f` (all of `f` when shorter). -/
def lastSeven (f : PyStr) : PyStr := f.drop (f.length - 7)

/-- The filter `f[-7:] == ".params"` applied to directory listings in
`train.py` (lines 186 and 223). -/
def isParamsFile (f : PyStr) : Bool := lastSeven f == pyStr ".params"

/-- Insertion step of a descending insertion sort under `strLe`. -/
def insertDesc (a : PyStr) : List PyStr → List PyStr
  | [] => [a]
  | b :: l => if strLe b a then a :: b :: l else b :: insertDesc a l

/-- Models `sorted(files, reverse=True)` (line 225): the files in descending
lexicographic order, so the head of the result is the greatest name. -/
def sortDesc : List PyStr → List PyStr
  | [] => []
  | a :: l => insertDesc a (sortDesc l)

/-- Python `int()` applied to a string: succeeds on a nonempty all-digit
string, otherwise raises (modelled as `none`). -/
def parseNat (s : PyStr) : Option Nat :=
  if s ≠ [] ∧ s.all Char.isDigit then
    some (s.foldl (fun acc c => acc * 10 + (c.toNat - Char.toNat (Char.ofNat 48))) 0)
  else none

/-- Python `name.split(".")[0]`: the characters before the first dot. -/
def splitDotHead (s : PyStr) : PyStr := s.takeWhile (fun c => c != '.')

/-- `int(model_name.split(".")[0])` from line 227. -/
def parseEpochOf (name : PyStr) : Option Nat := parseNat (splitDotHead name)

/-- Checkpoint resume, `train.py` lines 220-229.  The argument is `none` when
the run directory `models/<model_id>` does not exist, otherwise the list of its
filenames.  Returns the resolved starting epoch together with the selected
parameter file (if any); `Except.error` models the `ValueError` that `int()`
raises on an unparsable filename. -/
def resumeCheckpoint (dirFiles : Option (List PyStr)) : Except Unit (Nat × Option PyStr) :=
  match dirFiles with
  | none => Except.ok (0, none)
  | some files =>
    let params := files.filter isParamsFile
    if params.length > 0 then
      let sorted := sortDesc params
      let modelName := sorted.headD []
      match parseEpochOf modelName with
      | some e => Except.ok (e + 1, some modelName)
      | none => Except.error ()
    else Except.ok (0, none)

/-- The single-frame / two-stream base classifier chosen on lines 177-181. -/
inductive BaseModel
  | frame
  | twoStream
deriving DecidableEq

/-- The assembled model variant produced by lines 177-201: the plain base
model (optionally with backbone parameters loaded from another run), a
temporal-pooling wrapper, or a recurrent wrapper. -/
inductive AsmModel
  | plain (b : BaseModel) (loadedBackbone : Bool)
  | pooled (b : BaseModel) (loadedBackbone : Bool) (pool : String)
  | rnn (b : BaseModel) (loadedBackbone : Bool) (rnnType : String)
deriving DecidableEq

/-- Python truthiness of an optional string flag: `None` and the empty string
are falsy. -/
def pyTruthy (s : Option String) : Bool :=
  match s with
  | none => false
  | some v => v != ""

/-- The base model object of lines 177-181: a two-stream fusion model or a
single-frame classifier. -/
def baseOf (twoStream : Bool) : BaseModel :=
  if twoStream then BaseModel.twoStream else BaseModel.frame

/-- Whether lines 183-192 load backbone parameters from another run: the
`backbone_from_id` flag is truthy, its directory exists, and the directory
holds at least one `.params` file. -/
def backboneLoaded (backboneFromId : Option String)
    (backboneDirFiles : Option (List PyStr)) : Bool :=
  pyTruthy backboneFromId &&
    (match backboneDirFiles with
      | some files => !(files.filter isParamsFile).isEmpty
      | none => false)

/-- Model assembly, `train.py` lines 177-201.  `backboneDirFiles` is `none`
when `models/<backbone_from_id>` does not exist, otherwise its filenames.
`Except.error` models an `AssertionError` aborting the run. -/
def assembleModel (twoStream : Bool) (window : Nat) (tempPool : Option String)
    (backboneFromId : Option String) (backboneDirFiles : Option (List PyStr))
    (backbone : String) : Except Unit AsmModel :=
  let base := baseOf twoStream
  if window > 1 then
    let loaded := backboneLoaded backboneFromId backboneDirFiles
    if tempPool = some "max" ∨ tempPool = some "mean" then
      if pyTruthy backboneFromId then
        Except.ok (AsmModel.pooled base loaded (tempPool.getD ""))
      else Except.error ()
    else if tempPool = some "gru" ∨ tempPool = some "lstm" then
      Except.ok (AsmModel.rnn base loaded (tempPool.getD ""))
    else
      if backbone = "rdnet" then
        if window = 32 then Except.ok (AsmModel.plain base loaded) else Except.error ()
      else Except.error ()
  else Except.ok (AsmModel.plain base false)

/-- One epoch of the learning-rate decay logic (`train.py` lines 306-308),
acting on the state (learning rate, `lr_counter`).  `none` models the
`IndexError` raised by `FLAGS.lr_steps[lr_counter]` when the counter has run
past the end of the boundary list. -/
def lrEpochStep (steps : List Nat) (factor : ℚ) (epoch : Nat) (s : ℚ × Nat) : Option (ℚ × Nat) :=
  match steps[s.2]? with
  | none => none
  | some b => if epoch = b then some (s.1 * factor, s.2 + 1) else some s

/-- The learning-rate schedule threaded through a list of epoch indices
(the `for epoch in range(start_epoch, FLAGS.epochs)` loop of `train_model`,
restricted to its effect on the learning rate and `lr_counter`). -/
def runLR (steps : List Nat) (factor : ℚ) : List Nat → (ℚ × Nat) → Option (ℚ × Nat)
  | [], s => some s
  | e :: rest, s =>
    match lrEpochStep steps factor e s with
    | none => none
    | some s2 => runLR steps factor rest s2

/-- Number of configured boundaries strictly below `n`. -/
def cntLt (steps : List Nat) (n : Nat) : Nat :=
  (steps.filter (fun b => decide (b < n))).length

/-- Python `"{:04d}".format(n)`: `n` in decimal, left-padded with zeros to at
least four characters. -/
def pad4 (n : Nat) : PyStr :=
  let s := Nat.toDigits 10 n
  List.replicate (4 - s.length) '0' ++ s

/-- `os.path.join("models", model_id, "{:04d}.params".format(epoch))`
(line 402). -/
def cpPath (modelId : PyStr) (e : Nat) : PyStr :=
  pyStr "models/" ++ modelId ++ pyStr "/" ++ pad4 e ++ pyStr ".params"

/-- Ordered observable events of the harness: one epoch of training batches,
one validation pass, one checkpoint save, a crash (uncaught exception), and
the final test pass. -/
inductive TEvent
  | trainPass (epoch : Nat)
  | validate (epoch : Nat)
  | save (epoch : Nat) (path : PyStr)
  | crash (epoch : Nat)
  | testPass
deriving DecidableEq

/-- The events of one completed epoch iteration of `train_model` (lines
304-402), in program order: the batch loop, then the validation pass
(line 377), then the checkpoint write (line 402). -/
def epochEvents (modelId : PyStr) (e : Nat) : List TEvent :=
  [TEvent.trainPass e, TEvent.validate e, TEvent.save e (cpPath modelId e)]

/-- Event trace of the `train_model` epoch loop over the given epoch indices,
carrying `lr_counter`.  An epoch whose boundary lookup raises `IndexError`
(line 306) contributes a `crash` event and ends the trace; otherwise the
epoch runs to completion and contributes `epochEvents`. -/
def trainTrace (steps : List Nat) (modelId : PyStr) : List Nat → Nat → List TEvent
  | [], _ => []
  | e :: rest, cnt =>
    match steps[cnt]? with
    | none => [TEvent.crash e]
    | some b => epochEvents modelId e ++ trainTrace steps modelId rest (if e = b then cnt + 1 else cnt)

/-- Checkpoint-save event for a given epoch. -/
def isSaveOf (e : Nat) (ev : TEvent) : Bool :=
  match ev with
  | TEvent.save e2 _ => e2 == e
  | _ => false

/-- Line 260: `if FLAGS.temp_pool not in ["max", "mean"]` guards the call to
`train_model`. -/
def runsTraining (tempPool : Option String) : Bool :=
  (tempPool != some "max") && (tempPool != some "mean")

/-- Which model object reaches `test_model` in `main` (lines 260-265): the
result of training, or the assembled model directly when training is
skipped. -/
def mainModelForTest (tempPool : Option String) (assembled trained : AsmModel) : AsmModel :=
  if runsTraining tempPool then trained else assembled

/-- Event trace of `main` after model assembly: the training-loop trace (when
training runs) followed by the test pass (line 265). -/
def mainEvents (tempPool : Option String) (trainEvts : List TEvent) : List TEvent :=
  (if runsTraining tempPool then trainEvts else []) ++ [TEvent.testPass]

/-- A batch yielded by a data loader: `(input, label, index)` tensors, each a
list along the batch axis. -/
structure TBatch (α : Type) where
  data : List α
  labels : List Nat
  idxs : List Nat

/-- Models `gluon.utils.split_and_load(..., even_split=False)`: when the batch
is smaller than the device count it yields one single-element slice per
sample; otherwise `num` slices of `size // num` elements with the remainder
apportioned to the last slice. -/
def splitLoad {γ : Type} (num : Nat) (l : List γ) : List (List γ) :=
  if l.length < num then l.map (fun x => [x])
  else
    let step := l.length / num
    ((List.range (num - 1)).map (fun i => (l.drop (i * step)).take step)) ++
      [l.drop ((num - 1) * step)]

/-- A per-device network result: a single output tensor (iterating it yields
one row per sample) or a multi-output tuple of such tensors (for example a
two-stream model). -/
inductive NetOut (β : Type)
  | single (rows : List β)
  | multi (streams : List (List β))
deriving DecidableEq

/-- The runtime value of the Python variable `idxs` inside the visualisation
loop of `test_model`: initially the list of per-device index tensors, but
rebound (line 422) to a flat list of ints on the first device iteration. -/
inductive IdxsVar
  | perDev (l : List (List Nat))
  | flat (l : List Nat)

/-- `[int(idx) for idx in idxs[di].asnumpy()]` (line 422).  When `idxs` still
holds the per-device tensors this extracts device `di`; once it has been
rebound to a flat int list, `idxs[di]` is an int (or out of range) and
`.asnumpy()` raises. -/
def readIdxs (v : IdxsVar) (di : Nat) : Except Unit (List Nat) :=
  match v with
  | IdxsVar.perDev l =>
    match l[di]? with
    | some a => Except.ok a
    | none => Except.error ()
  | IdxsVar.flat _ => Except.error ()

/-- The per-sample save loop of lines 425-430 for one device: multi-output
results save `[o[i] for o in output]`, single-output results save
`output[i]`, keyed by the sample index.  The branch is chosen by the shape of
the FIRST device result (`outputs[0]`); the final arm models the failing
iteration/indexing when the chosen branch does not match the actual shape
(unreachable for a shape-uniform network). -/
def saveOne {β : Type} (firstIsMultiOut : Bool) (out : NetOut β) (flat : List Nat) :
    Except Unit (List (Nat × (β ⊕ List β))) :=
  match firstIsMultiOut, out with
  | true, NetOut.multi streams =>
    (List.range flat.length).mapM (fun i =>
      match flat[i]?, streams.mapM (fun o => o[i]?) with
      | some idx, some arts => Except.ok (idx, Sum.inr arts)
      | _, _ => Except.error ())
  | false, NetOut.single rows =>
    (List.range flat.length).mapM (fun i =>
      match flat[i]?, rows[i]? with
      | some idx, some r => Except.ok (idx, Sum.inl r)
      | _, _ => Except.error ())
  | _, _ => Except.error ()

/-- Whether `outputs[0]` is a list or tuple (line 425). -/
def firstIsMulti {β : Type} (outputs : List (NetOut β)) : Bool :=
  match outputs.head? with
  | some (NetOut.multi _) => true
  | _ => false

/-- The `for di in range(len(outputs))` device loop of lines 421-430,
threading the Python variable `idxs` (which the loop body rebinds) and
collecting the saved per-sample artifacts. -/
def visDevLoop {β : Type} (firstIsMultiOut : Bool) :
    List (NetOut β) → Nat → IdxsVar → Except Unit (List (Nat × (β ⊕ List β)))
  | [], _, _ => Except.ok []
  | out :: rest, di, v => do
    let flat ← readIdxs v di
    let saves ← saveOne firstIsMultiOut out flat
    let more ← visDevLoop firstIsMultiOut rest (di + 1) (IdxsVar.flat flat)
    Except.ok (saves ++ more)

/-- Visualisation handling for one batch (lines 419-430). -/
def visBatch {β : Type} (outputs : List (NetOut β)) (idxsSplit : List (List Nat)) :
    Except Unit (List (Nat × (β ⊕ List β))) :=
  visDevLoop (firstIsMulti outputs) outputs 0 (IdxsVar.perDev idxsSplit)

/-- `test_model` (lines 408-432): inference over every batch, updating every
metric with all devices' labels and outputs, optionally persisting per-sample
visualisation artifacts.  Metrics are modelled as states `σ` folded with a
caller-supplied `update`; no reset is ever applied.  Returns the final metric
states and the saved artifacts; `Except.error` models an uncaught exception
inside the loop. -/
def testModel {α β σ : Type} (net : List α → NetOut β) (numDev : Nat)
    (update : σ → List (List Nat) → List (NetOut β) → σ) :
    List (TBatch α) → List σ → Bool → Except Unit (List σ × List (Nat × (β ⊕ List β)))
  | [], metrics, _ => Except.ok (metrics, [])
  | b :: rest, metrics, vis =>
    let labelsS := splitLoad numDev b.labels
    let idxsS := splitLoad numDev b.idxs
    let outputs := (splitLoad numDev b.data).map net
    let metrics2 := metrics.map (fun m => update m labelsS outputs)
    match (if vis then visBatch outputs idxsS else Except.ok []) with
    | Except.error e => Except.error e
    | Except.ok saves =>
      match testModel net numDev update rest metrics2 vis with
      | Except.error e => Except.error e
      | Except.ok (ms, more) => Except.ok (ms, saves ++ more)

/-- The pure metric fold performed by `test_model`: every batch updates every
metric state, in loader order. -/
def testMetrics {α β σ : Type} (net : List α → NetOut β) (numDev : Nat)
    (update : σ → List (List Nat) → List (NetOut β) → σ)
    (loader : List (TBatch α)) (metrics : List σ) : List σ :=
  loader.foldl
    (fun ms b => ms.map (fun m => update m (splitLoad numDev b.labels) ((splitLoad numDev b.data).map net)))
    metrics

/-- Add one observation to a confusion matrix: increment the cell at
(label, prediction). -/
def cmBump (m : Nat → Nat → Nat) (p : Nat × Nat) : Nat → Nat → Nat :=
  fun i j => if i = p.1 ∧ j = p.2 then m i j + 1 else m i j

/-- Add a list of (label, prediction) observations to a confusion matrix. -/
def cmAddPairs (m : Nat → Nat → Nat) (ps : List (Nat × Nat)) : Nat → Nat → Nat :=
  ps.foldl cmBump m

/-- The predicted class per sample extracted from one device result; for a
multi-output result the first output is used. -/
def netPreds : NetOut Nat → List Nat
  | NetOut.single rows => rows
  | NetOut.multi streams => streams.headD []

/-- Modelled from the spec: the confusion-matrix metric (class `PRF1` of
`metrics.py`, which is not under `src/`).  Per the spec, the metrics
aggregator "accumulates ... confusion-matrix statistics incrementally": each
`update` call increments `mat[label][prediction]` once per sample across all
devices and never clears existing counts. -/
def confMatUpdate (m : Nat → Nat → Nat) (labels : List (List Nat)) (outputs : List (NetOut Nat)) :
    Nat → Nat → Nat :=
  cmAddPairs m ((labels.flatten).zip (outputs.flatMap netPreds))

/-- The confusion-matrix state after `test_model` runs over a loader
(the `testMetrics` fold specialised to the single `confMatUpdate` metric). -/
def cmAfter {α : Type} (net : List α → NetOut Nat) (numDev : Nat)
    (loader : List (TBatch α)) (m : Nat → Nat → Nat) : Nat → Nat → Nat :=
  loader.foldl
    (fun m2 b => confMatUpdate m2 (splitLoad numDev b.labels) ((splitLoad numDev b.data).map net))
    m

/-- The logging guard of line 343: `FLAGS.log_interval and not (i + 1) %
FLAGS.log_interval`. -/
def logTriggered (logInterval : Nat) (i : Nat) : Bool :=
  (logInterval != 0) && ((i + 1) % logInterval == 0)

/-- The divisor of the running-average loss on line 347:
`i * FLAGS.batch_size`. -/
def avgLossDivisor (i batchSize : Nat) : Nat := i * batchSize

theorem strLe_refl (s : PyStr) : strLe s s = true := by
  induction s with
  | nil => rfl
  | cons a as ih => simp [strLe, ih]

theorem strLe_total (a b : PyStr) : strLe a b = true ∨ strLe b a = true := by
  induction a generalizing b with
  | nil => left; rfl
  | cons x xs ih =>
    cases b with
    | nil => right; rfl
    | cons y ys =>
      rcases lt_trichotomy x y with h | h | h
      · left; simp [strLe, h]
      · subst h
        simpa [strLe] using ih ys
      · right; simp [strLe, h]

theorem strLe_antisymm : ∀ {a b : PyStr}, strLe a b = true → strLe b a = true → a = b := by
  intro a
  induction a with
  | nil =>
    intro b h1 h2
    cases b with
    | nil => rfl
    | cons y ys => simp [strLe] at h2
  | cons x xs ih =>
    intro b h1 h2
    cases b with
    | nil => simp [strLe] at h1
    | cons y ys =>
      rcases lt_trichotomy x y with h | h | h
      · simp [strLe, h, asymm h] at h2
      · subst h
        simp only [strLe, lt_self_iff_false, if_false] at h1 h2
        exact congrArg (x :: ·) (ih h1 h2)
      · simp [strLe, h, asymm h] at h1

theorem strLe_trans : ∀ {a b c : PyStr}, strLe a b = true → strLe b c = true → strLe a c = true := by
  intro a
  induction a with
  | nil => intro b c _ _; rfl
  | cons x xs ih =>
    intro b c h1 h2
    cases b with
    | nil => simp [strLe] at h1
    | cons y ys =>
      cases c with
      | nil => simp [strLe] at h2
      | cons z zs =>
        rcases lt_trichotomy x y with hxy | hxy | hxy
        · rcases lt_trichotomy y z with hyz | hyz | hyz
          · simp [strLe, lt_trans hxy hyz]
          · subst hyz; simp [strLe, hxy]
          · simp [strLe, hyz, asymm hyz] at h2
        · subst hxy
          rcases lt_trichotomy x z with hyz | hyz | hyz
          · simp [strLe, hyz]
          · subst hyz
            simp only [strLe, lt_self_iff_false, if_false] at h1 h2 ⊢
            exact ih h1 h2
          · simp [strLe, hyz, asymm hyz] at h2
        · simp [strLe, hxy, asymm hxy] at h1

theorem mem_insertDesc {x a : PyStr} {l : List PyStr} : x ∈ insertDesc a l ↔ x = a ∨ x ∈ l := by
  induction l with
  | nil => simp [insertDesc]
  | cons b t ih =>
    cases h : strLe b a with
    | true => simp [insertDesc, h]
    | false =>
      simp only [insertDesc, h, Bool.false_eq_true, if_false, List.mem_cons, ih]
      tauto

theorem mem_sortDesc {x : PyStr} {l : List PyStr} : x ∈ sortDesc l ↔ x ∈ l := by
  induction l with
  | nil => simp [sortDesc]
  | cons a t ih => simp [sortDesc, mem_insertDesc, ih]

theorem insertDesc_ne_nil (a : PyStr) (l : List PyStr) : insertDesc a l ≠ [] := by
  cases l with
  | nil => simp [insertDesc]
  | cons b t => by_cases h : strLe b a = true <;> simp [insertDesc, h]

theorem sortDesc_ne_nil {l : List PyStr} (h : l ≠ []) : sortDesc l ≠ [] := by
  cases l with
  | nil => exact absurd rfl h
  | cons a t => exact insertDesc_ne_nil a (sortDesc t)

theorem headD_insertDesc_cons (a b : PyStr) (t : List PyStr) (d : PyStr) :
    (insertDesc a (b :: t)).headD d = if strLe b a then a else b := by
  by_cases h : strLe b a = true <;> simp [insertDesc, h]

theorem le_headD_sortDesc {x : PyStr} {l : List PyStr} (hx : x ∈ l) (d : PyStr) :
    strLe x ((sortDesc l).headD d) = true := by
  induction l generalizing d with
  | nil => cases hx
  | cons a t ih =>
    show strLe x ((insertDesc a (sortDesc t)).headD d) = true
    rcases List.mem_cons.mp hx with rfl | hxt
    · cases hst : sortDesc t with
      | nil => simpa [insertDesc] using strLe_refl x
      | cons b tb =>
        rw [headD_insertDesc_cons]
        by_cases hba : strLe b x = true
        · simp [hba, strLe_refl]
        · simp only [hba, if_false]
          rcases strLe_total x b with h2 | h2
          · exact h2
          · exact absurd h2 hba
    · cases hst : sortDesc t with
      | nil =>
        exact absurd (mem_sortDesc.mpr hxt) (by simp [hst])
      | cons b tb =>
        have hxb : strLe x b = true := by
          have := ih hxt b
          rw [hst] at this
          simpa using this
        rw [headD_insertDesc_cons]
        by_cases hba : strLe b a = true
        · simp only [hba, if_true]
          exact strLe_trans hxb hba
        · simpa [hba] using hxb

theorem headD_sortDesc_mem {l : List PyStr} (h : l ≠ []) (d : PyStr) :
    (sortDesc l).headD d ∈ l := by
  cases hst : sortDesc l with
  | nil => exact absurd hst (sortDesc_ne_nil h)
  | cons b tb =>
    have : b ∈ sortDesc l := by rw [hst]; exact List.mem_cons_self b tb
    simpa using mem_sortDesc.mp this

/-- C1: for a run directory whose `.params` files are present, checkpoint
resume selects the lexicographically greatest filename and resumes at its
parsed epoch number plus one; a missing directory or a directory with no
`.params` files yields starting epoch 0 and no file. -/
theorem c1_checkpoint_resume (files : List PyStr) (m : PyStr) (e : Nat)
    (hmem : m ∈ files.filter isParamsFile)
    (hmax : ∀ f ∈ files.filter isParamsFile, strLe f m = true)
    (hparse : parseEpochOf m = some e) :
    resumeCheckpoint (some files) = Except.ok (e + 1, some m)
    ∧ resumeCheckpoint none = Except.ok (0, none)
    ∧ (∀ gs : List PyStr, gs.filter isParamsFile = [] →
        resumeCheckpoint (some gs) = Except.ok (0, none)) := by
  refine ⟨?_, rfl, ?_⟩
  · have hne : files.filter isParamsFile ≠ [] := List.ne_nil_of_mem hmem
    have hhd : (sortDesc (files.filter isParamsFile)).headD [] = m :=
      strLe_antisymm (hmax _ (headD_sortDesc_mem hne [])) (le_headD_sortDesc hmem [])
    show resumeCheckpoint (some files) = Except.ok (e + 1, some m)
    simp only [resumeCheckpoint]
    rw [if_pos (List.length_pos.mpr hne), hhd, hparse]
  · intro gs hgs
    rw [resumeCheckpoint, hgs]
    rfl

/-- The concrete directory listing 0000.params .. 0019.params plus the
sibling log.txt that the harness also writes into the run directory. -/
def paramFiles20 : List PyStr :=
  (List.range 20).map (fun e => pad4 e ++ pyStr ".params") ++ [pyStr "log.txt"]

theorem c1_checkpoint_resume_witness :
    resumeCheckpoint (some paramFiles20) = Except.ok (20, some (pyStr "0019.params"))
    ∧ resumeCheckpoint none = Except.ok (0, none)
    ∧ (∀ gs : List PyStr, gs.filter isParamsFile = [] →
        resumeCheckpoint (some gs) = Except.ok (0, none)) :=
  c1_checkpoint_resume paramFiles20 (pyStr "0019.params") 19
    (by decide) (by decide) (by decide)

/-- C3 counterexample: a recurrent (gru) temporal mode with `window > 1` and
no backbone-source run id does NOT raise an assertion failure — assembly
succeeds with a recurrent model, contradicting the claim that it aborts. -/
theorem c3_recurrent_no_assert_cex :
    assembleModel false 2 (some "gru") none none "resnet18_v2"
      = Except.ok (AsmModel.rnn BaseModel.frame false "gru") := by
  rfl

/-- C3 (amended): with `window > 1`, pooling mode (max/mean) without a truthy
backbone-source id raises an assertion failure; a recurrent mode (gru/lstm)
performs no such check and assembles the recurrent model; with no recognised
temporal mode and `window ≠ 32` an assertion failure is raised. -/
theorem c3_assembly_assertions (ts : Bool) (w : Nat) (tp bfi : Option String)
    (bfiles : Option (List PyStr)) (bb : String) (hw : 1 < w) :
    ((tp = some "max" ∨ tp = some "mean") → pyTruthy bfi = false →
      assembleModel ts w tp bfi bfiles bb = Except.error ())
    ∧ ((tp = some "gru" ∨ tp = some "lstm") →
      assembleModel ts w tp bfi bfiles bb
        = Except.ok (AsmModel.rnn (baseOf ts) (backboneLoaded bfi bfiles) (tp.getD "")))
    ∧ (tp ≠ some "max" → tp ≠ some "mean" → tp ≠ some "gru" → tp ≠ some "lstm" → w ≠ 32 →
      assembleModel ts w tp bfi bfiles bb = Except.error ()) := by
  refine ⟨?_, ?_, ?_⟩
  · intro htp hbf
    simp only [assembleModel, if_pos hw, if_pos htp, hbf]
    simp
  · intro htp
    have hnp : ¬ (tp = some "max" ∨ tp = some "mean") := by
      rcases htp with h | h <;> subst h <;> simp
    simp only [assembleModel, if_pos hw, if_neg hnp, if_pos htp]
  · intro h1 h2 h3 h4 hw32
    have hnp : ¬ (tp = some "max" ∨ tp = some "mean") := by
      rintro (h | h) <;> simp_all
    have hnr : ¬ (tp = some "gru" ∨ tp = some "lstm") := by
      rintro (h | h) <;> simp_all
    simp only [assembleModel, if_pos hw, if_neg hnp, if_neg hnr]
    by_cases hbb : bb = "rdnet"
    · simp [hbb, hw32]
    · simp [hbb]

theorem c3_assembly_assertions_witness :
    (((some "mean" : Option String) = some "max" ∨ (some "mean" : Option String) = some "mean") →
      pyTruthy none = false →
      assembleModel false 2 (some "mean") none none "resnet18_v2" = Except.error ())
    ∧ (((some "mean" : Option String) = some "gru" ∨ (some "mean" : Option String) = some "lstm") →
      assembleModel false 2 (some "mean") none none "resnet18_v2"
        = Except.ok (AsmModel.rnn (baseOf false) (backboneLoaded none none)
            ((some "mean" : Option String).getD "")))
    ∧ ((some "mean" : Option String) ≠ some "max" → (some "mean" : Option String) ≠ some "mean" →
      (some "mean" : Option String) ≠ some "gru" → (some "mean" : Option String) ≠ some "lstm" →
      2 ≠ 32 →
      assembleModel false 2 (some "mean") none none "resnet18_v2" = Except.error ()) :=
  c3_assembly_assertions false 2 (some "mean") none none "resnet18_v2" (by decide)

theorem cntLt_zero (steps : List Nat) : cntLt steps 0 = 0 := by
  simp [cntLt]

theorem cntLt_le_length (steps : List Nat) (n : Nat) : cntLt steps n ≤ steps.length :=
  List.length_filter_le _ _

theorem cntLt_cons_pos {a n : Nat} (t : List Nat) (h : a < n) :
    cntLt (a :: t) n = cntLt t n + 1 := by
  simp [cntLt, List.filter_cons, h]

theorem cntLt_cons_neg {a n : Nat} (t : List Nat) (h : ¬ a < n) :
    cntLt (a :: t) n = cntLt t n := by
  simp [cntLt, List.filter_cons, h]

theorem cntLt_eq_zero_of_all_ge {t : List Nat} {n : Nat} (h : ∀ x ∈ t, ¬ x < n) :
    cntLt t n = 0 := by
  have : t.filter (fun b => decide (b < n)) = [] := by
    rw [List.filter_eq_nil_iff]
    intro x hx
    simp only [decide_eq_true_eq]
    exact h x hx
  simp [cntLt, this]

theorem cntLt_tail_zero {a : Nat} {t : List Nat} (hs : List.Sorted (· < ·) (a :: t)) {n : Nat}
    (h : ¬ a < n) : cntLt t n = 0 := by
  apply cntLt_eq_zero_of_all_ge
  intro x hx
  have hax := (List.sorted_cons.mp hs).1 x hx
  omega

theorem cntLt_get_ge : ∀ (steps : List Nat), List.Sorted (· < ·) steps → ∀ (n b : Nat),
    steps[cntLt steps n]? = some b → n ≤ b := by
  intro steps
  induction steps with
  | nil => intro _ n b h; simp at h
  | cons a t ih =>
    intro hs n b h
    by_cases ha : a < n
    · rw [cntLt_cons_pos t ha, List.getElem?_cons_succ] at h
      exact ih (List.sorted_cons.mp hs).2 n b h
    · rw [cntLt_cons_neg t ha, cntLt_tail_zero hs ha, List.getElem?_cons_zero] at h
      cases h
      omega

theorem cntLt_succ_of_match : ∀ (steps : List Nat), List.Sorted (· < ·) steps → ∀ (n b : Nat),
    steps[cntLt steps n]? = some b → n = b → cntLt steps (n + 1) = cntLt steps n + 1 := by
  intro steps
  induction steps with
  | nil => intro _ n b h; simp at h
  | cons a t ih =>
    intro hs n b h heq
    by_cases ha : a < n
    · rw [cntLt_cons_pos t ha, List.getElem?_cons_succ] at h
      rw [cntLt_cons_pos t (by omega), cntLt_cons_pos t ha]
      rw [ih (List.sorted_cons.mp hs).2 n b h heq]
    · rw [cntLt_cons_neg t ha, cntLt_tail_zero hs ha, List.getElem?_cons_zero] at h
      cases h
      subst heq
      have htz : cntLt t (n + 1) = 0 := by
        apply cntLt_eq_zero_of_all_ge
        intro x hx
        have hax := (List.sorted_cons.mp hs).1 x hx
        omega
      rw [cntLt_cons_pos t (by omega), cntLt_cons_neg t ha, cntLt_tail_zero hs ha, htz]

theorem cntLt_succ_of_no_match : ∀ (steps : List Nat), List.Sorted (· < ·) steps → ∀ (n b : Nat),
    steps[cntLt steps n]? = some b → n ≠ b → cntLt steps (n + 1) = cntLt steps n := by
  intro steps
  induction steps with
  | nil => intro _ n b h; simp at h
  | cons a t ih =>
    intro hs n b h hne
    by_cases ha : a < n
    · rw [cntLt_cons_pos t ha, List.getElem?_cons_succ] at h
      rw [cntLt_cons_pos t (by omega), cntLt_cons_pos t ha]
      rw [ih (List.sorted_cons.mp hs).2 n b h hne]
    · rw [cntLt_cons_neg t ha, cntLt_tail_zero hs ha, List.getElem?_cons_zero] at h
      cases h
      have hna : n < a := by omega
      have htz : cntLt t (n + 1) = 0 := by
        apply cntLt_eq_zero_of_all_ge
        intro x hx
        have hax := (List.sorted_cons.mp hs).1 x hx
        omega
      rw [cntLt_cons_neg t (by omega), cntLt_cons_neg t ha, cntLt_tail_zero hs ha, htz]

theorem runLR_append (steps : List Nat) (f : ℚ) (l1 l2 : List Nat) (s : ℚ × Nat) :
    runLR steps f (l1 ++ l2) s =
      match runLR steps f l1 s with
      | none => none
      | some s2 => runLR steps f l2 s2 := by
  induction l1 generalizing s with
  | nil => rfl
  | cons e rest ih =>
    show runLR steps f (e :: (rest ++ l2)) s = _
    simp only [runLR]
    cases lrEpochStep steps f e s with
    | none => rfl
    | some s2 => exact ih s2

theorem runLR_range_char (steps : List Nat) (hs : List.Sorted (· < ·) steps) (f lr0 : ℚ) :
    ∀ n : Nat, runLR steps f (List.range n) (lr0, 0) =
      if ∀ e < n, cntLt steps e < steps.length
      then some (lr0 * f ^ cntLt steps n, cntLt steps n)
      else none := by
  intro n
  induction n with
  | zero =>
    rw [if_pos (fun e he => absurd he (Nat.not_lt_zero e))]
    simp [List.range_zero, runLR, cntLt_zero]
  | succ n ih =>
    rw [List.range_succ, runLR_append, ih]
    by_cases hc : ∀ e < n, cntLt steps e < steps.length
    · rw [if_pos hc]
      show runLR steps f [n] (lr0 * f ^ cntLt steps n, cntLt steps n) = _
      cases hg : steps[cntLt steps n]? with
      | none =>
        have hlen : steps.length ≤ cntLt steps n := List.getElem?_eq_none_iff.mp hg
        have hstep : runLR steps f [n] (lr0 * f ^ cntLt steps n, cntLt steps n) = none := by
          simp [runLR, lrEpochStep, hg]
        rw [hstep, if_neg]
        intro hall
        exact absurd (hall n (by omega)) (by omega)
      | some b =>
        have hblt : cntLt steps n < steps.length := by
          by_contra hge
          rw [List.getElem?_eq_none (by omega)] at hg
          cases hg
        have hc2 : ∀ e < n + 1, cntLt steps e < steps.length := by
          intro e he
          rcases Nat.lt_succ_iff_lt_or_eq.mp he with h | h
          · exact hc e h
          · subst h; exact hblt
        rw [if_pos hc2]
        by_cases heq : n = b
        · subst heq
          have hcnt := cntLt_succ_of_match steps hs n n hg rfl
          have hstep : runLR steps f [n] (lr0 * f ^ cntLt steps n, cntLt steps n)
              = some (lr0 * f ^ cntLt steps n * f, cntLt steps n + 1) := by
            simp [runLR, lrEpochStep, hg]
          rw [hstep, hcnt, pow_succ, mul_assoc]
        · have hcnt := cntLt_succ_of_no_match steps hs n b hg heq
          have hstep : runLR steps f [n] (lr0 * f ^ cntLt steps n, cntLt steps n)
              = some (lr0 * f ^ cntLt steps n, cntLt steps n) := by
            simp [runLR, lrEpochStep, hg, heq]
          rw [hstep, hcnt]
    · rw [if_neg hc, if_neg (fun hall => hc (fun e he => hall e (Nat.lt_succ_of_lt he)))]

/-- C2: for a run from epoch 0 with boundaries [10, 20] and factor 3/4, after
every epoch n up to 20 the learning rate equals the initial rate times the
factor raised to the number of boundaries passed so far — the rate is
multiplied exactly when the epoch index equals the next unconsumed boundary
and at most once per boundary; in particular 0.75 times the initial rate
after epoch 10, and 0.5625 times after epoch 20. -/
theorem c2_lr_decay (lr0 : ℚ) (n : Nat) (hn : n ≤ 20) :
    runLR [10, 20] (3/4) (List.range (n + 1)) (lr0, 0)
      = some (lr0 * (3/4) ^ ([10, 20].filter (fun b => decide (b ≤ n))).length,
              ([10, 20].filter (fun b => decide (b ≤ n))).length)
    ∧ runLR [10, 20] (3/4) (List.range 11) (lr0, 0) = some (lr0 * (3/4), 1)
    ∧ runLR [10, 20] (3/4) (List.range 21) (lr0, 0) = some (lr0 * (9/16), 2) := by
  have hsorted : List.Sorted (· < ·) ([10, 20] : List Nat) := by decide
  have key : ∀ m : Nat, m ≤ 20 →
      runLR [10, 20] (3/4) (List.range (m + 1)) (lr0, 0)
        = some (lr0 * (3/4) ^ ([10, 20].filter (fun b => decide (b ≤ m))).length,
                ([10, 20].filter (fun b => decide (b ≤ m))).length) := by
    intro m hm
    have hcond : ∀ e < m + 1, cntLt [10, 20] e < ([10, 20] : List Nat).length := by
      intro e he
      have h20 : ¬ (20 < e) := by omega
      have hval : cntLt [10, 20] e = (if 10 < e then 1 else 0) := by
        by_cases h10 : 10 < e <;> simp [cntLt, List.filter, h10, h20]
      rw [hval]
      by_cases h10 : 10 < e <;> simp [h10]
    rw [runLR_range_char [10, 20] hsorted (3/4) lr0 (m + 1), if_pos hcond]
    have hfe : cntLt [10, 20] (m + 1) = ([10, 20].filter (fun b => decide (b ≤ m))).length := by
      unfold cntLt
      congr 1
      apply List.filter_congr
      intro b _
      simp [Nat.lt_succ_iff]
    rw [hfe]
  refine ⟨key n hn, ?_, ?_⟩
  · have h := key 10 (by omega)
    norm_num [List.filter] at h
    exact h
  · have h := key 20 (by omega)
    norm_num [List.filter] at h
    rw [h]

theorem c2_lr_decay_witness :
    (runLR [10, 20] (3/4) (List.range (10 + 1)) ((2 : ℚ), 0)
      = some (2 * (3/4) ^ ([10, 20].filter (fun b => decide (b ≤ 10))).length,
              ([10, 20].filter (fun b => decide (b ≤ 10))).length)
    ∧ runLR [10, 20] (3/4) (List.range 11) ((2 : ℚ), 0) = some (2 * (3/4), 1)
    ∧ runLR [10, 20] (3/4) (List.range 21) ((2 : ℚ), 0) = some (2 * (9/16), 2)) :=
  c2_lr_decay 2 10 (by norm_num)

theorem length_filter_lt_of_mem {α : Type} {l : List α} {p : α → Bool} {a : α}
    (ha : a ∈ l) (hpa : p a = false) : (l.filter p).length < l.length := by
  induction l with
  | nil => cases ha
  | cons b t ih =>
    rcases List.mem_cons.mp ha with rfl | hat
    · simp only [List.filter_cons, hpa, Bool.false_eq_true, if_false, List.length_cons]
      have := List.length_filter_le p t
      omega
    · cases hpb : p b
      · simp only [List.filter_cons, hpb, Bool.false_eq_true, if_false, List.length_cons]
        have := ih hat
        omega
      · simp only [List.filter_cons, hpb, if_true, List.length_cons]
        have := ih hat
        omega

theorem sorted_le_getLast : ∀ {l : List Nat}, List.Sorted (· < ·) l → ∀ {x : Nat}, x ∈ l →
    ∀ (h : l ≠ []), x ≤ l.getLast h := by
  intro l
  induction l with
  | nil => intro _ x hx; cases hx
  | cons a t ih =>
    intro hs x hx h
    cases t with
    | nil =>
      rcases List.mem_cons.mp hx with rfl | hxt
      · simp [List.getLast]
      · cases hxt
    | cons b t2 =>
      have htne : (b :: t2 : List Nat) ≠ [] := by simp
      rw [List.getLast_cons htne]
      rcases List.mem_cons.mp hx with rfl | hxt
      · have hmem := List.getLast_mem htne
        have := (List.sorted_cons.mp hs).1 _ hmem
        omega
      · exact ih (List.sorted_cons.mp hs).2 hxt htne

/-- C8 (amended): for a run from epoch 0 with a strictly increasing nonempty
boundary list, the run completes without IndexError precisely when the epoch
range stays within one epoch past the last boundary (final epoch index at
most the last boundary); proceeding one epoch further makes the boundary
lookup index past the end of the list and crash.  (A resumed run that skips
a boundary never advances the counter and is exempt — see the
counterexample.) -/
theorem c8_lr_overflow (steps : List Nat) (f lr0 : ℚ) (E : Nat)
    (hs : List.Sorted (· < ·) steps) (hne : steps ≠ []) :
    ((runLR steps f (List.range E) (lr0, 0)).isSome ↔ E ≤ steps.getLast hne + 1)
    ∧ runLR steps f (List.range (steps.getLast hne + 2)) (lr0, 0) = none := by
  have hchar := runLR_range_char steps hs f lr0
  have hiff : ∀ E2 : Nat, (∀ e < E2, cntLt steps e < steps.length) ↔ E2 ≤ steps.getLast hne + 1 := by
    intro E2
    constructor
    · intro hall
      by_contra hE
      push_neg at hE
      have h1 := hall (steps.getLast hne + 1) (by omega)
      have hfull : cntLt steps (steps.getLast hne + 1) = steps.length := by
        unfold cntLt
        rw [List.filter_eq_self.mpr]
        intro x hx
        simp only [decide_eq_true_eq]
        have := sorted_le_getLast hs hx hne
        omega
      omega
    · intro hE e he
      have hstrict : (steps.filter (fun b => decide (b < e))).length < steps.length := by
        apply length_filter_lt_of_mem (List.getLast_mem hne)
        simp only [decide_eq_false_iff_not]
        have : e ≤ steps.getLast hne := by omega
        omega
      exact hstrict
  constructor
  · rw [hchar E]
    by_cases hc : ∀ e < E, cntLt steps e < steps.length
    · rw [if_pos hc]
      simpa using (hiff E).mp hc
    · rw [if_neg hc]
      simpa using fun hE => hc ((hiff E).mpr hE)
  · rw [hchar _, if_neg]
    intro hall
    have := (hiff _).mp hall
    omega

theorem c8_lr_overflow_witness :
    ((runLR [10, 20] (3/4) (List.range 21) ((1 : ℚ), 0)).isSome ↔
        21 ≤ ([10, 20] : List Nat).getLast (by decide) + 1)
    ∧ runLR [10, 20] (3/4) (List.range (([10, 20] : List Nat).getLast (by decide) + 2))
        ((1 : ℚ), 0) = none :=
  c8_lr_overflow [10, 20] (3/4) 1 21 (by decide) (by decide)

/-- C8 counterexample: a resumed run starting at epoch 11 with boundaries
[10, 20] trains epochs 11..24 and completes with no IndexError (the skipped
boundary 10 pins the counter at index 0 forever), even though the final
trained epoch index 24 exceeds the last boundary 20 — refuting the claim
that training completes without the error only when the final epoch index is
at most the last boundary. -/
theorem c8_resume_completes_cex :
    runLR [10, 20] (3/4) (List.range' 11 14) ((1 : ℚ), 0) = some (1, 0)
    ∧ (24 : Nat) ∈ List.range' 11 14
    ∧ ([10, 20] : List Nat).getLast (by decide) < 24 :=
  ⟨rfl, by decide, by decide⟩

theorem isSaveOf_true {e : Nat} {ev : TEvent} : isSaveOf e ev = true ↔ ∃ p, ev = TEvent.save e p := by
  cases ev <;> simp [isSaveOf]

theorem trainTrace_save_epochs : ∀ (epochs : List Nat) (steps : List Nat) (id : PyStr)
    (cnt e : Nat) (p : PyStr),
    TEvent.save e p ∈ trainTrace steps id epochs cnt → e ∈ epochs := by
  intro epochs
  induction epochs with
  | nil => intro _ _ _ _ _ h; simp [trainTrace] at h
  | cons e2 rest ih =>
    intro steps id cnt e p h
    simp only [trainTrace] at h
    cases hg : steps[cnt]? with
    | none =>
      rw [hg] at h
      simp at h
    | some b =>
      rw [hg] at h
      simp only [List.mem_append] at h
      rcases h with h1 | h1
      · simp [epochEvents] at h1
        simp [h1.1]
      · exact List.mem_cons_of_mem _ (ih steps id _ e p h1)

theorem trainTrace_validate_epochs : ∀ (epochs : List Nat) (steps : List Nat) (id : PyStr)
    (cnt e : Nat),
    TEvent.validate e ∈ trainTrace steps id epochs cnt → e ∈ epochs := by
  intro epochs
  induction epochs with
  | nil => intro _ _ _ _ h; simp [trainTrace] at h
  | cons e2 rest ih =>
    intro steps id cnt e h
    simp only [trainTrace] at h
    cases hg : steps[cnt]? with
    | none =>
      rw [hg] at h
      simp at h
    | some b =>
      rw [hg] at h
      simp only [List.mem_append] at h
      rcases h with h1 | h1
      · simp [epochEvents] at h1
        simp [h1]
      · exact List.mem_cons_of_mem _ (ih steps id _ e h1)

/-- C4: in the `train_model` epoch loop over any duplicate-free list of epoch
indices, a checkpoint for epoch `e` is written exactly when epoch `e` runs to
completion (its validation pass happens), it is written exactly once, always
at path `models/<model_id>/<epoch:04d>.params`, and it appears in the trace
immediately after epoch `e`'s batch loop and validation pass. -/
theorem c4_checkpoint_discipline (steps : List Nat) (id : PyStr) (epochs : List Nat) (cnt : Nat)
    (e : Nat) (hnd : epochs.Nodup) :
    (TEvent.validate e ∈ trainTrace steps id epochs cnt →
      ((trainTrace steps id epochs cnt).filter (isSaveOf e)).length = 1)
    ∧ (∀ p, TEvent.save e p ∈ trainTrace steps id epochs cnt → p = cpPath id e)
    ∧ (TEvent.validate e ∈ trainTrace steps id epochs cnt ↔
        TEvent.save e (cpPath id e) ∈ trainTrace steps id epochs cnt)
    ∧ (TEvent.save e (cpPath id e) ∈ trainTrace steps id epochs cnt →
        ∃ pre post, trainTrace steps id epochs cnt
          = pre ++ [TEvent.trainPass e, TEvent.validate e, TEvent.save e (cpPath id e)] ++ post) := by
  induction epochs generalizing cnt with
  | nil =>
    refine ⟨?_, ?_, ?_, ?_⟩ <;> simp [trainTrace]
  | cons e2 rest ih =>
    have hnd2 : rest.Nodup := (List.nodup_cons.mp hnd).2
    have hnm : e2 ∉ rest := (List.nodup_cons.mp hnd).1
    cases hg : steps[cnt]? with
    | none =>
      have htr : trainTrace steps id (e2 :: rest) cnt = [TEvent.crash e2] := by
        simp only [trainTrace]
        rw [hg]
      refine ⟨?_, ?_, ?_, ?_⟩ <;> simp [htr, isSaveOf]
    | some b =>
      have htr : trainTrace steps id (e2 :: rest) cnt
          = epochEvents id e2 ++ trainTrace steps id rest (if e2 = b then cnt + 1 else cnt) := by
        simp only [trainTrace]
        rw [hg]
      obtain ⟨ih1, ih2, ih3, ih4⟩ := ih (if e2 = b then cnt + 1 else cnt) hnd2
      by_cases he : e = e2
      · subst he
        have htail_nosave : ∀ p, TEvent.save e p ∉ trainTrace steps id rest (if e = b then cnt + 1 else cnt) := by
          intro p hmem
          exact hnm (trainTrace_save_epochs rest steps id _ e p hmem)
        have htail_filter :
            (trainTrace steps id rest (if e = b then cnt + 1 else cnt)).filter (isSaveOf e) = [] := by
          rw [List.filter_eq_nil_iff]
          intro ev hev hsv
          obtain ⟨p, rfl⟩ := isSaveOf_true.mp hsv
          exact htail_nosave p hev
        refine ⟨?_, ?_, ?_, ?_⟩
        · intro _
          rw [htr, List.filter_append, htail_filter]
          simp [epochEvents, isSaveOf]
        · intro p hp
          rw [htr] at hp
          rcases List.mem_append.mp hp with h1 | h1
          · simp [epochEvents] at h1
            exact h1
          · exact absurd h1 (htail_nosave p)
        · rw [htr]
          simp [epochEvents]
        · intro _
          refine ⟨[], trainTrace steps id rest (if e = b then cnt + 1 else cnt), ?_⟩
          rw [htr]
          rfl
      · have hhead_novalidate : TEvent.validate e ∉ epochEvents id e2 := by
          simp [epochEvents, he]
        have hhead_nosave : ∀ p, TEvent.save e p ∉ epochEvents id e2 := by
          intro p
          simp [epochEvents, he]
        have hhead_filter : (epochEvents id e2).filter (isSaveOf e) = [] := by
          rw [List.filter_eq_nil_iff]
          intro ev hev hsv
          obtain ⟨p, rfl⟩ := isSaveOf_true.mp hsv
          exact hhead_nosave p hev
        refine ⟨?_, ?_, ?_, ?_⟩
        · intro hv
          rw [htr] at hv ⊢
          rcases List.mem_append.mp hv with h1 | h1
          · exact absurd h1 hhead_novalidate
          · rw [List.filter_append, hhead_filter, List.nil_append]
            exact ih1 h1
        · intro p hp
          rw [htr] at hp
          rcases List.mem_append.mp hp with h1 | h1
          · exact absurd h1 (hhead_nosave p)
          · exact ih2 p h1
        · rw [htr]
          simp only [List.mem_append]
          constructor
          · rintro (h1 | h1)
            · exact absurd h1 hhead_novalidate
            · exact Or.inr (ih3.mp h1)
          · rintro (h1 | h1)
            · exact absurd h1 (hhead_nosave _)
            · exact Or.inr (ih3.mpr h1)
        · intro hp
          rw [htr] at hp
          rcases List.mem_append.mp hp with h1 | h1
          · exact absurd h1 (hhead_nosave _)
          · obtain ⟨pre, post, hsplit⟩ := ih4 h1
            refine ⟨epochEvents id e2 ++ pre, post, ?_⟩
            rw [htr, hsplit]
            simp [List.append_assoc]

theorem c4_checkpoint_discipline_witness :
    (TEvent.validate 1 ∈ trainTrace [10, 20] (pyStr "0000") [0, 1, 2] 0 →
      ((trainTrace [10, 20] (pyStr "0000") [0, 1, 2] 0).filter (isSaveOf 1)).length = 1)
    ∧ (∀ p, TEvent.save 1 p ∈ trainTrace [10, 20] (pyStr "0000") [0, 1, 2] 0 →
        p = cpPath (pyStr "0000") 1)
    ∧ (TEvent.validate 1 ∈ trainTrace [10, 20] (pyStr "0000") [0, 1, 2] 0 ↔
        TEvent.save 1 (cpPath (pyStr "0000") 1) ∈ trainTrace [10, 20] (pyStr "0000") [0, 1, 2] 0)
    ∧ (TEvent.save 1 (cpPath (pyStr "0000") 1) ∈ trainTrace [10, 20] (pyStr "0000") [0, 1, 2] 0 →
        ∃ pre post, trainTrace [10, 20] (pyStr "0000") [0, 1, 2] 0
          = pre ++ [TEvent.trainPass 1, TEvent.validate 1,
              TEvent.save 1 (cpPath (pyStr "0000") 1)] ++ post) :=
  c4_checkpoint_discipline [10, 20] (pyStr "0000") [0, 1, 2] 0 1 (by decide)

/-- C10: when the temporal-pooling mode is mean or max, `main` never enters
the training loop: whatever events training would have produced, the events
after assembly are exactly the final test pass (so no optimizer step runs and
no checkpoint is saved by this run), and the model passed to `test_model` is
the assembled model itself. -/
theorem c10_pooling_skips_training (tp : Option String)
    (h : tp = some "mean" ∨ tp = some "max")
    (assembled trained : AsmModel) (trainEvts : List TEvent) :
    mainModelForTest tp assembled trained = assembled
    ∧ mainEvents tp trainEvts = [TEvent.testPass]
    ∧ (∀ ev ∈ mainEvents tp trainEvts, ev = TEvent.testPass) := by
  have hrt : runsTraining tp = false := by
    rcases h with rfl | rfl <;> rfl
  refine ⟨?_, ?_, ?_⟩
  · simp [mainModelForTest, hrt]
  · simp [mainEvents, hrt]
  · intro ev hev
    simp [mainEvents, hrt] at hev
    exact hev

theorem c10_pooling_skips_training_witness :
    mainModelForTest (some "mean") (AsmModel.pooled BaseModel.frame true "mean")
        (AsmModel.plain BaseModel.frame false)
      = AsmModel.pooled BaseModel.frame true "mean"
    ∧ mainEvents (some "mean") (trainTrace [10, 20] (pyStr "0000") [0, 1] 0) = [TEvent.testPass]
    ∧ (∀ ev ∈ mainEvents (some "mean") (trainTrace [10, 20] (pyStr "0000") [0, 1] 0),
        ev = TEvent.testPass) :=
  c10_pooling_skips_training (some "mean") (Or.inl rfl)
    (AsmModel.pooled BaseModel.frame true "mean") (AsmModel.plain BaseModel.frame false)
    (trainTrace [10, 20] (pyStr "0000") [0, 1] 0)

theorem testModel_false_eq {α β σ : Type} (net : List α → NetOut β) (numDev : Nat)
    (update : σ → List (List Nat) → List (NetOut β) → σ) :
    ∀ (loader : List (TBatch α)) (ms : List σ),
    testModel net numDev update loader ms false
      = Except.ok (testMetrics net numDev update loader ms, []) := by
  intro loader
  induction loader with
  | nil => intro ms; rfl
  | cons b rest ih =>
    intro ms
    simp only [testModel, Bool.false_eq_true, if_false]
    rw [ih]
    simp [testMetrics]

theorem cmAddPairs_apply (ps : List (Nat × Nat)) : ∀ (m : Nat → Nat → Nat) (i j : Nat),
    cmAddPairs m ps i j = m i j + cmAddPairs (fun _ _ => 0) ps i j := by
  induction ps with
  | nil => intro m i j; simp [cmAddPairs]
  | cons p ps ih =>
    intro m i j
    simp only [cmAddPairs, List.foldl_cons]
    have h1 := ih (cmBump m p) i j
    have h2 := ih (cmBump (fun _ _ => 0) p) i j
    simp only [cmAddPairs] at h1 h2
    rw [h1, h2]
    simp only [cmBump]
    by_cases h : i = p.1 ∧ j = p.2
    · simp only [h, and_self, if_true]
      omega
    · simp only [h, if_false]
      omega

theorem cmAfter_eq_addPairs {α : Type} (netc : List α → NetOut Nat) (nd : Nat) :
    ∀ (loader : List (TBatch α)) (m : Nat → Nat → Nat),
    cmAfter netc nd loader m
      = cmAddPairs m (loader.flatMap (fun b =>
          ((splitLoad nd b.labels).flatten).zip
            (((splitLoad nd b.data).map netc).flatMap netPreds))) := by
  intro loader
  induction loader with
  | nil => intro m; rfl
  | cons b rest ih =>
    intro m
    show cmAfter netc nd rest
        (confMatUpdate m (splitLoad nd b.labels) ((splitLoad nd b.data).map netc)) = _
    rw [ih]
    simp [cmAddPairs, confMatUpdate, List.flatMap_cons, List.foldl_append]

theorem testMetrics_confmat {α : Type} (netc : List α → NetOut Nat) (nd : Nat) :
    ∀ (loader : List (TBatch α)) (mat : Nat → Nat → Nat),
    testMetrics netc nd confMatUpdate loader [mat] = [cmAfter netc nd loader mat] := by
  intro loader
  induction loader with
  | nil => intro mat; rfl
  | cons b rest ih =>
    intro mat
    show testMetrics netc nd confMatUpdate rest
        [confMatUpdate mat (splitLoad nd b.labels) ((splitLoad nd b.data).map netc)] = _
    rw [ih]
    rfl

/-- C5: `test_model` applies only metric updates and never a reset: it
returns the plain fold of `update` over the loader (no error, no artifacts
when visualisation is off); two passes run back-to-back equal one pass over
the concatenated loader; and for the spec-modelled confusion-matrix metric
the counts after the second pass are the first pass counts plus the counts
the second pass would produce alone from a zero matrix. -/
theorem c5_eval_accumulates {α β σ : Type} (net : List α → NetOut β) (numDev : Nat)
    (update : σ → List (List Nat) → List (NetOut β) → σ)
    (loader l1 l2 : List (TBatch α)) (ms : List σ)
    (netc : List α → NetOut Nat) (mat : Nat → Nat → Nat) (i j : Nat) :
    testModel net numDev update loader ms false
      = Except.ok (testMetrics net numDev update loader ms, [])
    ∧ testMetrics net numDev update (l1 ++ l2) ms
      = testMetrics net numDev update l2 (testMetrics net numDev update l1 ms)
    ∧ testMetrics netc numDev confMatUpdate loader [mat] = [cmAfter netc numDev loader mat]
    ∧ cmAfter netc numDev (l1 ++ l2) mat i j
      = cmAfter netc numDev l1 mat i j + cmAfter netc numDev l2 (fun _ _ => 0) i j := by
  refine ⟨testModel_false_eq net numDev update loader ms, ?_, testMetrics_confmat netc numDev loader mat, ?_⟩
  · simp [testMetrics, List.foldl_append]
  · rw [cmAfter_eq_addPairs, cmAfter_eq_addPairs, cmAfter_eq_addPairs, List.flatMap_append]
    have h12 : ∀ (P1 P2 : List (Nat × Nat)) (m : Nat → Nat → Nat),
        cmAddPairs m (P1 ++ P2) = cmAddPairs (cmAddPairs m P1) P2 := by
      intro P1 P2 m
      simp [cmAddPairs, List.foldl_append]
    rw [h12]
    exact cmAddPairs_apply _ _ i j

/-- C7: an evaluation pass over a loader yielding zero batches returns the
metric set unchanged, persists nothing, and raises nothing, for any device
count and visualisation flag. -/
theorem c7_empty_eval {α β σ : Type} (net : List α → NetOut β) (numDev : Nat)
    (update : σ → List (List Nat) → List (NetOut β) → σ) (metrics : List σ) (vis : Bool) :
    testModel net numDev update [] metrics vis = Except.ok (metrics, []) := rfl

/-- C6: with visualisation enabled, the per-device loop of `test_model`
rebinds `idxs` to the first device's flat int list (line 422), so with two
devices the second device iteration raises instead of persisting its
samples; with a single device every item of the batch is persisted keyed by
its dataset index, as the claim describes. -/
theorem c6_vis_two_devices_crash :
    testModel (fun l => NetOut.single l) 2 (fun (m : Unit) _ _ => m)
        [⟨[5, 6], [0, 1], [7, 8]⟩] [()] true
      = Except.error ()
    ∧ testModel (fun l => NetOut.single l) 1 (fun (m : Unit) _ _ => m)
        [⟨[5, 6], [0, 1], [7, 8]⟩] [()] true
      = Except.ok ([()], [(7, Sum.inl 5), (8, Sum.inl 6)]) := by
  constructor <;> rfl


theorem logTriggered_interval_one (i : Nat) : logTriggered 1 i = true := by
  simp [logTriggered, Nat.mod_one]

theorem avgLossDivisor_first_batch (batchSize : Nat) : avgLossDivisor 0 batchSize = 0 := by
  simp [avgLossDivisor]
